import Mathlib

/-!
Verification development for the kubevirt sidecar-hook discovery engine and the
perfscale load-generator entry point.

The development shallowly embeds:

* the `dynamicInfoServer.Info` self-description handler and the hook test
  fixtures from `tools/perfscale-load-generator/load-generator.go`;
* the hooks manager (`Collect`, `CallbacksPerHookPoint`, registry lookup), whose
  implementation lives in `pkg/hooks` outside the provided sources and is
  therefore modelled from the specification (named `Modelled from the spec:` in
  the doc comments below);
* the `main` function of the load generator as an effect trace.

Machine integers (`int32` priorities) are modelled as `Int`; no arithmetic is
performed on them, so overflow is irrelevant.  Real time (deadlines, poll
intervals) is abstracted: the input of `Collect` is the discovery-ordered list
of probe outcomes that happen before the deadline.
-/

/-- Hook point declaration carried in an `InfoResult`: a name and the priority
the sidecar declares for it (mirrors `hooksInfo.HookPoint` as constructed by
`dynamicInfoServer.Info` in the source). -/
structure HookPoint where
  Name : String
  Priority : Int
  deriving DecidableEq, Repr

/-- Self-description response of a sidecar (mirrors `hooksInfo.InfoResult` as
constructed by `dynamicInfoServer.Info` in the source). -/
structure InfoResult where
  Name : String
  Versions : List String
  HookPoints : List HookPoint
  deriving DecidableEq, Repr

/-- Request context passed to the `Info` RPC handler; the handler ignores it,
so it is modelled as an opaque token. -/
structure Context where
  requestId : Nat
  deriving DecidableEq, Repr

/-- Parameter message of the `Info` RPC; the protocol message carries no
fields. -/
structure InfoParams where
  deriving DecidableEq, Repr

/-- Modelled from the spec: the `v1alpha3` protocol version string
(`hooksV1alpha3.Version`, declared in `pkg/hooks/v1alpha3` outside the provided
sources; the spec names it the v1alpha3 version string). -/
def hooksV1alpha3Version : String := "v1alpha3"

/-- Test hook server configuration from the source: a hook name and a single
hook-point declaration with its priority. -/
structure dynamicInfoServer where
  hookName : String
  hookPointName : String
  hookPointPriority : Int
  deriving DecidableEq, Repr

/-- Embedding of `dynamicInfoServer.Info` from the source: it ignores `ctx` and
`params` and returns a descriptor built from the server configuration together
with a nil error (the pair models Go's `(*InfoResult, error)` return). -/
def dynamicInfoServer.Info (s : dynamicInfoServer) (ctx : Context) (params : InfoParams) :
    Option InfoResult × Option String :=
  (some { Name := s.hookName
          Versions := [hooksV1alpha3Version]
          HookPoints := [{ Name := s.hookPointName, Priority := s.hookPointPriority }] },
   none)

/-- Modelled from the spec: a Callback Entry of the registry (the hooks
manager's callback client, declared in `pkg/hooks` outside the provided
sources): an invocation handle to the sidecar plus the hook-point declarations
it was registered for; the tests read the `subscribedHookPoints` field. -/
structure CallbackEntry where
  handle : String
  subscribedHookPoints : List HookPoint
  deriving DecidableEq, Repr

/-- Modelled from the spec: the Callback Registry, a mapping from hook-point
name to the ordered sequence of Callback Entries (the hooks manager's
`CallbacksPerHookPoint` map, declared in `pkg/hooks` outside the provided
sources). -/
abbrev CallbackRegistry := List (String × List CallbackEntry)

/-- Priority an entry declares (priority of its first subscribed hook point;
entries built by discovery always have exactly one). -/
def entryPriority (e : CallbackEntry) : Int :=
  match e.subscribedHookPoints with
  | [] => 0
  | hp :: _ => hp.Priority

/-- Modelled from the spec: positional insertion preserving descending
priority; the new entry is placed after every existing entry of greater or
equal priority (ties broken first-discovered-first-kept). -/
def insertEntry (e : CallbackEntry) : List CallbackEntry → List CallbackEntry
  | [] => [e]
  | x :: xs =>
    if entryPriority x < entryPriority e then e :: x :: xs
    else x :: insertEntry e xs

/-- Modelled from the spec: registry lookup, `get(hookPointName)`; returns the
empty sequence when the hook point has no registered entries. -/
def RegistryLookup : CallbackRegistry → String → List CallbackEntry
  | [], _ => []
  | (k, l) :: rest, h => if k = h then l else RegistryLookup rest h

/-- Modelled from the spec: insert one Callback Entry under a hook-point name,
placing it inside that hook point's sequence by `insertEntry`. -/
def registryInsert (h : String) (e : CallbackEntry) : CallbackRegistry → CallbackRegistry
  | [] => [(h, [e])]
  | (k, l) :: rest =>
    if k = h then (k, insertEntry e l) :: rest
    else (k, l) :: registryInsert h e rest

/-- Modelled from the spec: expansion of a successful probe — one Callback
Entry per declared hook point, all sharing the sidecar's invocation handle. -/
def expandDescriptor (endpoint : String) (d : InfoResult) : List CallbackEntry :=
  d.HookPoints.map (fun hp => { handle := endpoint, subscribedHookPoints := [hp] })

/-- Modelled from the spec: merge a successful probe's Callback Entries into
the registry, each under the hook-point name it declared. -/
def mergeDescriptor (endpoint : String) (d : InfoResult) (reg : CallbackRegistry) :
    CallbackRegistry :=
  d.HookPoints.foldl
    (fun r hp => registryInsert hp.Name { handle := endpoint, subscribedHookPoints := [hp] } r)
    reg

/-- Modelled from the spec: one probe outcome observed before the deadline —
an endpoint address together with either its descriptor (successful probe) or
`none` (transient connect/describe failure). -/
structure ProbeEvent where
  endpoint : String
  result : Option InfoResult
  deriving DecidableEq, Repr

/-- Modelled from the spec: the ephemeral Collection State — the set of
endpoints already successfully probed and the registry built so far. -/
structure CollectState where
  probed : List String
  CallbacksPerHookPoint : CallbackRegistry
  deriving DecidableEq, Repr

/-- Modelled from the spec: one step of the Collection Loop.  A transient
failure is absorbed; an endpoint already probed is skipped; a new successful
probe is recorded and its entries merged into the registry. -/
def collectStep (st : CollectState) (ev : ProbeEvent) : CollectState :=
  match ev.result with
  | none => st
  | some d =>
    if ev.endpoint ∈ st.probed then st
    else { probed := ev.endpoint :: st.probed
           CallbacksPerHookPoint := mergeDescriptor ev.endpoint d st.CallbacksPerHookPoint }

/-- Modelled from the spec: the Collection Loop run over the discovery-ordered
probe outcomes observed before the deadline, starting from the empty state. -/
def runCollect (events : List ProbeEvent) : CollectState :=
  events.foldl collectStep { probed := [], CallbacksPerHookPoint := [] }

/-- Modelled from the spec: the deadline-miss error of `Collect`, reporting how
many sidecars were found versus expected. -/
structure TimeoutError where
  found : Nat
  expected : Nat
  deriving DecidableEq, Repr

/-- Modelled from the spec: `Collect(expectedCount, timeout)` — succeed with
the registry when the count of distinct successfully probed sidecars reaches
`expectedCount`, otherwise report a `TimeoutError`. -/
def Collect (events : List ProbeEvent) (expectedCount : Nat) :
    Except TimeoutError CallbackRegistry :=
  let st := runCollect events
  if expectedCount ≤ st.probed.length then Except.ok st.CallbacksPerHookPoint
  else Except.error { found := st.probed.length, expected := expectedCount }

/-- Registry of a `Collect` result; empty on error. -/
def resultRegistry : Except TimeoutError CallbackRegistry → CallbackRegistry
  | Except.ok reg => reg
  | Except.error _ => []

/-- Total number of Callback Entries stored in a registry. -/
def registrySize (reg : CallbackRegistry) : Nat :=
  (reg.map (fun p => p.2.length)).sum

/-- Sequence sorted by non-increasing priority. -/
def sortedDesc (l : List CallbackEntry) : Prop :=
  l.Pairwise (fun a b => entryPriority b ≤ entryPriority a)

instance sortedDescDecidable (l : List CallbackEntry) : Decidable (sortedDesc l) := by
  unfold sortedDesc; infer_instance

/-- Hook-point names of an entry's subscriptions. -/
def entryHookNames (e : CallbackEntry) : List String :=
  e.subscribedHookPoints.map HookPoint.Name

/-- Discovery fixture: a probe event whose descriptor is produced by the
embedded `dynamicInfoServer.Info` handler. -/
def probeEventOf (s : dynamicInfoServer) (socketPath : String) : ProbeEvent :=
  { endpoint := socketPath, result := (dynamicInfoServer.Info s { requestId := 0 } {}).1 }

/-- Hook-point name used by the source tests (`hooksInfo.OnDefineDomainHookPointName`,
declared outside the provided sources; the concrete string only serves as a
distinct key). -/
def OnDefineDomainHookPointName : String := "OnDefineDomain"

/-- Hook-point name used by the source tests (`hooksInfo.PreCloudInitIsoHookPointName`,
declared outside the provided sources; the concrete string only serves as a
distinct key). -/
def PreCloudInitIsoHookPointName : String := "PreCloudInitIso"

/-- Fixture: a sidecar serving one hook point at one priority, discovered at a
socket path. -/
def sidecarEvent (hookName hookPointName socketPath : String) (priority : Int) : ProbeEvent :=
  probeEventOf
    { hookName := hookName, hookPointName := hookPointName, hookPointPriority := priority }
    socketPath

/-- Fixture of the priority-ordering test: three sidecars on the same hook
point with priorities 1, 2 and 3. -/
def threePriorityEvents : List ProbeEvent :=
  [sidecarEvent ("OnDefineDomain1") OnDefineDomainHookPointName ("OnDefineDomain1.sock") 1,
   sidecarEvent ("OnDefineDomain2") OnDefineDomainHookPointName ("OnDefineDomain2.sock") 2,
   sidecarEvent ("OnDefineDomain3") OnDefineDomainHookPointName ("OnDefineDomain3.sock") 3]

/-- Fixture of the distinct-hook-point test: two sidecars on two different hook
points. -/
def twoHookPointEvents : List ProbeEvent :=
  [sidecarEvent ("hook1") OnDefineDomainHookPointName ("hook1.sock") 0,
   sidecarEvent ("hook2") PreCloudInitIsoHookPointName ("hook2.sock") 0]

/-- Fixture of the single-sidecar test. -/
def oneSidecarEvents : List ProbeEvent :=
  [sidecarEvent ("hook1") OnDefineDomainHookPointName ("hook1.sock") 0]

/-- Fixture of the equal-priority test: two sidecars on the same hook point,
both at priority 0, discovered in the order hook1 then hook2. -/
def equalPriorityEvents : List ProbeEvent :=
  [sidecarEvent ("hook1") OnDefineDomainHookPointName ("hook1.sock") 0,
   sidecarEvent ("hook2") OnDefineDomainHookPointName ("hook2.sock") 0]

/-- Membership in an inserted sequence: exactly the new entry or an old one. -/
theorem mem_insertEntry {y e : CallbackEntry} {l : List CallbackEntry} :
    y ∈ insertEntry e l ↔ y = e ∨ y ∈ l := by
  induction l with
  | nil => simp [insertEntry]
  | cons x xs ih =>
    by_cases hx : entryPriority x < entryPriority e
    · simp [insertEntry, hx, List.mem_cons]
    · simp [insertEntry, hx, List.mem_cons, ih]
      tauto

/-- Positional insertion preserves the non-increasing priority ordering. -/
theorem sortedDesc_insertEntry (e : CallbackEntry) {l : List CallbackEntry}
    (hs : sortedDesc l) : sortedDesc (insertEntry e l) := by
  induction l with
  | nil => simp [insertEntry, sortedDesc]
  | cons x xs ih =>
    rw [sortedDesc, List.pairwise_cons] at hs
    obtain ⟨hx, hxs⟩ := hs
    by_cases hlt : entryPriority x < entryPriority e
    · simp only [insertEntry, if_pos hlt]
      rw [sortedDesc, List.pairwise_cons]
      refine ⟨?_, List.Pairwise.cons hx hxs⟩
      intro y hy
      rcases List.mem_cons.mp hy with rfl | hy2
      · exact le_of_lt hlt
      · exact le_trans (hx y hy2) (le_of_lt hlt)
    · have hle : entryPriority e ≤ entryPriority x := not_lt.mp hlt
      simp only [insertEntry, if_neg hlt]
      rw [sortedDesc, List.pairwise_cons]
      refine ⟨?_, ih hxs⟩
      intro y hy
      rcases mem_insertEntry.mp hy with rfl | hy2
      · exact hle
      · exact hx y hy2

/-- Lookup after a registry insertion: the target sequence gains the entry by
positional insertion, every other sequence is untouched. -/
theorem lookup_registryInsert (reg : CallbackRegistry) (h hq : String) (e : CallbackEntry) :
    RegistryLookup (registryInsert h e reg) hq =
      if hq = h then insertEntry e (RegistryLookup reg hq) else RegistryLookup reg hq := by
  induction reg with
  | nil =>
    by_cases hcase : hq = h
    · rw [if_pos hcase]
      simp [registryInsert, RegistryLookup, hcase, insertEntry]
    · rw [if_neg hcase]
      simp [registryInsert, RegistryLookup, Ne.symm hcase]
  | cons p rest ih =>
    obtain ⟨k, l⟩ := p
    simp only [registryInsert]
    by_cases h1 : k = h
    · rw [if_pos h1]
      by_cases h2 : k = hq
      · have hqh : hq = h := h2 ▸ h1
        rw [if_pos hqh]
        simp only [RegistryLookup, if_pos h2]
      · have hqh : hq ≠ h := fun hh => h2 (h1.trans hh.symm)
        rw [if_neg hqh]
        simp only [RegistryLookup, if_neg h2]
    · rw [if_neg h1]
      by_cases h2 : k = hq
      · have hqh : hq ≠ h := fun hh => h1 (h2.trans hh)
        rw [if_neg hqh]
        simp only [RegistryLookup, if_pos h2]
      · simp only [RegistryLookup, if_neg h2]
        exact ih

/-- Universal predicate over all entries of a registry, indexed by the
hook-point name they are stored under. -/
def registryAll (P : String → CallbackEntry → Prop) (reg : CallbackRegistry) : Prop :=
  ∀ h e, e ∈ RegistryLookup reg h → P h e

theorem registryAll_nil {P : String → CallbackEntry → Prop} : registryAll P [] := by
  intro h e hmem
  simp [RegistryLookup] at hmem

theorem registryAll_insert {P : String → CallbackEntry → Prop} {reg : CallbackRegistry}
    (h : String) (e : CallbackEntry) (he : P h e) (hr : registryAll P reg) :
    registryAll P (registryInsert h e reg) := by
  intro hq e2 hmem
  rw [lookup_registryInsert] at hmem
  by_cases hqh : hq = h
  · rw [if_pos hqh] at hmem
    rcases mem_insertEntry.mp hmem with rfl | hm
    · rw [hqh]; exact he
    · exact hr hq e2 hm
  · rw [if_neg hqh] at hmem
    exact hr hq e2 hmem

theorem registryAll_merge {P : String → CallbackEntry → Prop} (ep : String) (d : InfoResult)
    {reg : CallbackRegistry}
    (hhp : ∀ hp, P hp.Name { handle := ep, subscribedHookPoints := [hp] })
    (hr : registryAll P reg) : registryAll P (mergeDescriptor ep d reg) := by
  unfold mergeDescriptor
  induction d.HookPoints generalizing reg with
  | nil => exact hr
  | cons hp hps ih =>
    simp only [List.foldl_cons]
    exact ih (registryAll_insert _ _ (hhp hp) hr)

/-- On a transient failure the collection step leaves the state unchanged. -/
theorem collectStep_none {st : CollectState} {ev : ProbeEvent} (h : ev.result = none) :
    collectStep st ev = st := by
  unfold collectStep
  rw [h]

/-- An already probed endpoint is skipped by the collection step. -/
theorem collectStep_skip {st : CollectState} {ev : ProbeEvent} {d : InfoResult}
    (h : ev.result = some d) (hm : ev.endpoint ∈ st.probed) : collectStep st ev = st := by
  unfold collectStep
  rw [h]
  simp [hm]

/-- A new successful probe is recorded and merged by the collection step. -/
theorem collectStep_new {st : CollectState} {ev : ProbeEvent} {d : InfoResult}
    (h : ev.result = some d) (hm : ev.endpoint ∉ st.probed) :
    collectStep st ev =
      { probed := ev.endpoint :: st.probed
        CallbacksPerHookPoint := mergeDescriptor ev.endpoint d st.CallbacksPerHookPoint } := by
  unfold collectStep
  rw [h]
  simp [hm]

theorem registryAll_collect_aux {P : String → CallbackEntry → Prop}
    (hP : ∀ ep hp, P hp.Name { handle := ep, subscribedHookPoints := [hp] })
    (events : List ProbeEvent) :
    ∀ st : CollectState, registryAll P st.CallbacksPerHookPoint →
      registryAll P ((events.foldl collectStep st).CallbacksPerHookPoint) := by
  induction events with
  | nil => intro st hst; exact hst
  | cons ev evs ih =>
    intro st hst
    simp only [List.foldl_cons]
    apply ih
    cases hres : ev.result with
    | none => rw [collectStep_none hres]; exact hst
    | some d =>
      by_cases hm : ev.endpoint ∈ st.probed
      · rw [collectStep_skip hres hm]; exact hst
      · rw [collectStep_new hres hm]
        exact registryAll_merge ev.endpoint d (fun hp => hP ev.endpoint hp) hst

/-- Every entry of a collected registry satisfies any predicate that holds of
all entries discovery can create. -/
theorem registryAll_runCollect {P : String → CallbackEntry → Prop}
    (hP : ∀ ep hp, P hp.Name { handle := ep, subscribedHookPoints := [hp] })
    (events : List ProbeEvent) :
    registryAll P (runCollect events).CallbacksPerHookPoint :=
  registryAll_collect_aux hP events _ registryAll_nil

/-- Registry whose every hook-point sequence is sorted by non-increasing
priority. -/
def sortedRegistry (reg : CallbackRegistry) : Prop :=
  ∀ h, sortedDesc (RegistryLookup reg h)

theorem sortedRegistry_nil : sortedRegistry [] := by
  intro h
  simp [RegistryLookup, sortedDesc]

theorem sortedRegistry_insert {reg : CallbackRegistry} (h : String) (e : CallbackEntry)
    (hr : sortedRegistry reg) : sortedRegistry (registryInsert h e reg) := by
  intro hq
  rw [lookup_registryInsert]
  by_cases hqh : hq = h
  · rw [if_pos hqh]
    exact sortedDesc_insertEntry e (hr hq)
  · rw [if_neg hqh]
    exact hr hq

theorem sortedRegistry_merge (ep : String) (d : InfoResult) {reg : CallbackRegistry}
    (hr : sortedRegistry reg) : sortedRegistry (mergeDescriptor ep d reg) := by
  unfold mergeDescriptor
  induction d.HookPoints generalizing reg with
  | nil => exact hr
  | cons hp hps ih =>
    simp only [List.foldl_cons]
    exact ih (sortedRegistry_insert _ _ hr)

theorem sortedRegistry_collect_aux (events : List ProbeEvent) :
    ∀ st : CollectState, sortedRegistry st.CallbacksPerHookPoint →
      sortedRegistry ((events.foldl collectStep st).CallbacksPerHookPoint) := by
  induction events with
  | nil => intro st hst; exact hst
  | cons ev evs ih =>
    intro st hst
    simp only [List.foldl_cons]
    apply ih
    cases hres : ev.result with
    | none => rw [collectStep_none hres]; exact hst
    | some d =>
      by_cases hm : ev.endpoint ∈ st.probed
      · rw [collectStep_skip hres hm]; exact hst
      · rw [collectStep_new hres hm]
        exact sortedRegistry_merge ev.endpoint d hst

/-- Every hook-point sequence of a collected registry is sorted by
non-increasing priority. -/
theorem sortedRegistry_runCollect (events : List ProbeEvent) :
    sortedRegistry (runCollect events).CallbacksPerHookPoint :=
  sortedRegistry_collect_aux events _ sortedRegistry_nil

theorem probed_nodup_aux (events : List ProbeEvent) :
    ∀ st : CollectState, st.probed.Nodup → (events.foldl collectStep st).probed.Nodup := by
  induction events with
  | nil => intro st hst; exact hst
  | cons ev evs ih =>
    intro st hst
    simp only [List.foldl_cons]
    apply ih
    cases hres : ev.result with
    | none => rw [collectStep_none hres]; exact hst
    | some d =>
      by_cases hm : ev.endpoint ∈ st.probed
      · rw [collectStep_skip hres hm]; exact hst
      · rw [collectStep_new hres hm]
        exact List.nodup_cons.mpr ⟨hm, hst⟩

/-- The probed-endpoint set of the Collection Loop never holds duplicates:
its length is the count of distinct successfully probed sidecars. -/
theorem probed_nodup (events : List ProbeEvent) : (runCollect events).probed.Nodup :=
  probed_nodup_aux events _ List.nodup_nil

/-- When every probe in the list succeeds, the endpoints are pairwise distinct
and none was probed before, each event adds exactly one probed sidecar. -/
theorem probed_length_aux (events : List ProbeEvent) :
    ∀ st : CollectState,
      (∀ ev ∈ events, ev.result.isSome = true) →
      ((events.map ProbeEvent.endpoint).Nodup) →
      (∀ ev ∈ events, ev.endpoint ∉ st.probed) →
      (events.foldl collectStep st).probed.length = st.probed.length + events.length := by
  induction events with
  | nil =>
    intro st _ _ _
    simp
  | cons ev evs ih =>
    intro st hok hnd hfresh
    obtain ⟨d, hd⟩ := Option.isSome_iff_exists.mp (hok ev (List.mem_cons_self _ _))
    have hstep := collectStep_new hd (hfresh ev (List.mem_cons_self _ _))
    simp only [List.foldl_cons, hstep]
    have hnd2 : (evs.map ProbeEvent.endpoint).Nodup := (List.nodup_cons.mp (by simpa using hnd)).2
    have hhead : ev.endpoint ∉ evs.map ProbeEvent.endpoint :=
      (List.nodup_cons.mp (by simpa using hnd)).1
    rw [ih _ (fun e he => hok e (List.mem_cons_of_mem _ he)) hnd2 ?_]
    · simp only [List.length_cons]
      omega
    · intro e he
      simp only [List.mem_cons, not_or]
      constructor
      · intro hcon
        exact hhead (hcon ▸ List.mem_map_of_mem ProbeEvent.endpoint he)
      · exact hfresh e (List.mem_cons_of_mem _ he)

/-- Collect succeeds exactly when the count of distinct successfully probed
sidecars reaches the expected count. -/
theorem collect_ok_iff (events : List ProbeEvent) (n : Nat) :
    (∃ reg, Collect events n = Except.ok reg) ↔ n ≤ (runCollect events).probed.length := by
  by_cases hle : n ≤ (runCollect events).probed.length
  · simp [Collect, hle]
  · simp [Collect, hle]

/-- On success, Collect returns the registry exactly as the Collection Loop
built it (no truncation to the expected count). -/
theorem collect_ok_registry (events : List ProbeEvent) (n : Nat) (reg : CallbackRegistry)
    (h : Collect events n = Except.ok reg) : reg = (runCollect events).CallbacksPerHookPoint := by
  by_cases hle : n ≤ (runCollect events).probed.length
  · simp only [Collect, if_pos hle] at h
    exact (Except.ok.injEq _ _ ▸ h).symm
  · simp [Collect, hle] at h

/-- Each insertion grows the target sequence by exactly one entry. -/
theorem length_insertEntry (e : CallbackEntry) (l : List CallbackEntry) :
    (insertEntry e l).length = l.length + 1 := by
  induction l with
  | nil => simp [insertEntry]
  | cons x xs ih =>
    by_cases hx : entryPriority x < entryPriority e
    · simp [insertEntry, hx]
    · simp [insertEntry, hx, ih]

/-- Each registry insertion grows the total entry count by exactly one. -/
theorem registrySize_insert (h : String) (e : CallbackEntry) (reg : CallbackRegistry) :
    registrySize (registryInsert h e reg) = registrySize reg + 1 := by
  induction reg with
  | nil => simp [registryInsert, registrySize]
  | cons p rest ih =>
    obtain ⟨k, l⟩ := p
    by_cases hk : k = h
    · simp [registryInsert, hk, registrySize, length_insertEntry]
      omega
    · simp [registryInsert, hk, registrySize] at ih ⊢
      omega

/-- Merging a descriptor adds exactly one entry per declared hook point. -/
theorem registrySize_merge (ep : String) (d : InfoResult) (reg : CallbackRegistry) :
    registrySize (mergeDescriptor ep d reg) = registrySize reg + d.HookPoints.length := by
  unfold mergeDescriptor
  induction d.HookPoints generalizing reg with
  | nil => simp
  | cons hp hps ih =>
    simp only [List.foldl_cons, List.length_cons]
    rw [ih, registrySize_insert]
    omega

/-- The inserted entry is present in its hook point's sequence. -/
theorem mem_lookup_insert_self (h : String) (e : CallbackEntry) (reg : CallbackRegistry) :
    e ∈ RegistryLookup (registryInsert h e reg) h := by
  rw [lookup_registryInsert, if_pos rfl]
  exact mem_insertEntry.mpr (Or.inl rfl)

/-- Registry insertion never removes an entry from any sequence. -/
theorem mem_lookup_insert_of_mem (h2 : String) (e2 : CallbackEntry) {reg : CallbackRegistry}
    {h : String} {e : CallbackEntry} (hm : e ∈ RegistryLookup reg h) :
    e ∈ RegistryLookup (registryInsert h2 e2 reg) h := by
  rw [lookup_registryInsert]
  by_cases hq : h = h2
  · rw [if_pos hq]
    exact mem_insertEntry.mpr (Or.inr hm)
  · rw [if_neg hq]
    exact hm

theorem mem_lookup_merge_of_mem (ep : String) (d : InfoResult) {reg : CallbackRegistry}
    {h : String} {e : CallbackEntry} (hm : e ∈ RegistryLookup reg h) :
    e ∈ RegistryLookup (mergeDescriptor ep d reg) h := by
  unfold mergeDescriptor
  induction d.HookPoints generalizing reg with
  | nil => exact hm
  | cons hp hps ih =>
    simp only [List.foldl_cons]
    exact ih (mem_lookup_insert_of_mem _ _ hm)

theorem mem_lookup_foldl_of_mem (ep : String) (hps : List HookPoint)
    {reg : CallbackRegistry} {h : String} {e : CallbackEntry}
    (hm : e ∈ RegistryLookup reg h) :
    e ∈ RegistryLookup
        (hps.foldl (fun r q =>
          registryInsert q.Name { handle := ep, subscribedHookPoints := [q] } r) reg)
        h := by
  induction hps generalizing reg with
  | nil => exact hm
  | cons q qs ih =>
    simp only [List.foldl_cons]
    exact ih (mem_lookup_insert_of_mem _ _ hm)

theorem mem_lookup_foldl (ep : String) (hps : List HookPoint) (reg : CallbackRegistry)
    (hp : HookPoint) (hhp : hp ∈ hps) :
    ({ handle := ep, subscribedHookPoints := [hp] } : CallbackEntry) ∈
      RegistryLookup
        (hps.foldl (fun r q =>
          registryInsert q.Name { handle := ep, subscribedHookPoints := [q] } r) reg)
        hp.Name := by
  induction hps generalizing reg with
  | nil => cases hhp
  | cons hp2 hps2 ih =>
    simp only [List.foldl_cons]
    rcases List.mem_cons.mp hhp with rfl | hmem
    · exact mem_lookup_foldl_of_mem ep hps2 (mem_lookup_insert_self _ _ reg)
    · exact ih _ hmem

/-- Merging a descriptor registers, for each declared hook point, an entry
carrying exactly that declaration and the sidecar's handle under that hook
point's name. -/
theorem mem_lookup_merge (ep : String) (d : InfoResult) (reg : CallbackRegistry)
    (hp : HookPoint) (hhp : hp ∈ d.HookPoints) :
    ({ handle := ep, subscribedHookPoints := [hp] } : CallbackEntry) ∈
      RegistryLookup (mergeDescriptor ep d reg) hp.Name := by
  unfold mergeDescriptor
  exact mem_lookup_foldl ep d.HookPoints reg hp hhp

/-- Positional insertion characterized: the new entry lands immediately after
the longest prefix of entries with greater or equal priority, so existing
equal-priority entries stay earlier (first-discovered-first-kept). -/
theorem insertEntry_eq_takeWhile_dropWhile (e : CallbackEntry) (l : List CallbackEntry) :
    insertEntry e l =
      l.takeWhile (fun x => decide (entryPriority e ≤ entryPriority x)) ++
      e :: l.dropWhile (fun x => decide (entryPriority e ≤ entryPriority x)) := by
  induction l with
  | nil => simp [insertEntry]
  | cons x xs ih =>
    by_cases hx : entryPriority x < entryPriority e
    · have hneg : ¬ (entryPriority e ≤ entryPriority x) := not_le.mpr hx
      simp [insertEntry, hx, hneg]
    · have hle : entryPriority e ≤ entryPriority x := not_lt.mp hx
      simp [insertEntry, hx, hle, ih]

/-- Collection over a single successful probe: the endpoint is recorded and its
descriptor merged into the empty registry. -/
theorem runCollect_single (ep : String) (d : InfoResult) :
    runCollect [{ endpoint := ep, result := some d }] =
      { probed := [ep], CallbacksPerHookPoint := mergeDescriptor ep d [] } := by
  simp [runCollect, collectStep]

/-- Command-line flags consumed by the load-generator main (from the source:
`flags.Verbosity`, `flags.WorkloadConfigFile`, `flags.Delete`). -/
structure LoadGenFlags where
  Verbosity : Int
  WorkloadConfigFile : String
  Delete : Bool
  deriving DecidableEq, Repr

/-- Effectful calls the load-generator `main` can make, in program order. -/
inductive MainEvent where
  | setVerbosityLevel (level : Int)
  | logInfo (msg : String)
  | newWorkload (configFile : String)
  | newKubevirtClient
  | newBurstLoadGenerator
  | deleteWorkload
  | createWorkload
  deriving DecidableEq, Repr

/-- Log line emitted by `main` (spelling as in the source). -/
def banchmarkLogMessage : String := "Running Load Generator Banchmark"

/-- Embedding of the load-generator `main` from the source as the trace of the
effectful calls it makes, in program order: set verbosity, log, build the
workload and client, build the burst generator, then delete the workload when
the Delete flag is set and create it otherwise. -/
def mainTrace (fl : LoadGenFlags) : List MainEvent :=
  [MainEvent.setVerbosityLevel fl.Verbosity,
   MainEvent.logInfo banchmarkLogMessage,
   MainEvent.newWorkload fl.WorkloadConfigFile,
   MainEvent.newKubevirtClient,
   MainEvent.newBurstLoadGenerator] ++
  (if fl.Delete then [MainEvent.deleteWorkload] else [MainEvent.createWorkload])

/-- Workload operations of the burst load generator. -/
def isWorkloadOp : MainEvent → Bool
  | MainEvent.deleteWorkload => true
  | MainEvent.createWorkload => true
  | _ => false

/-- Fixture: a hook-point declaration used by witnesses. -/
def sampleHookPoint : HookPoint :=
  { Name := "OnDefineDomain", Priority := 0 }

/-- Fixture: a socket path used by witnesses. -/
def sampleSocketPath : String := "hook1.sock"

/-- Fixture: a descriptor declaring a single hook point, as the embedded
`dynamicInfoServer.Info` would produce. -/
def sampleDescriptor : InfoResult :=
  { Name := "hook1", Versions := [hooksV1alpha3Version], HookPoints := [sampleHookPoint] }

/-- Fixture: a callback entry used by witnesses. -/
def sampleEntry : CallbackEntry :=
  { handle := sampleSocketPath, subscribedHookPoints := [sampleHookPoint] }

/-- C1: for every finite set of sidecars that all respond before the deadline
(every probe succeeds, endpoints pairwise distinct), Collect with
expectedCount the size of the set succeeds and every hook point's sequence in
the resulting registry is sorted by non-increasing priority; and for three
sidecars declaring the same hook point with priorities 1, 2 and 3, discovered
in any order, the lookup for that hook point yields priorities [3, 2, 1]. -/
theorem claim1_priority_ordered_registry (events : List ProbeEvent)
    (hok : ∀ ev ∈ events, ev.result.isSome = true)
    (hnd : (events.map ProbeEvent.endpoint).Nodup) :
    (∃ reg, Collect events events.length = Except.ok reg ∧
      ∀ h, sortedDesc (RegistryLookup reg h)) ∧
    (∀ l ∈ threePriorityEvents.permutations',
      ((RegistryLookup (resultRegistry (Collect l 3)) OnDefineDomainHookPointName).map
        entryPriority) = [3, 2, 1]) := by
  constructor
  · have hlen : (runCollect events).probed.length = events.length := by
      have h0 := probed_length_aux events { probed := [], CallbacksPerHookPoint := [] }
        hok hnd (fun ev _ => List.not_mem_nil ev.endpoint)
      simpa [runCollect] using h0
    refine ⟨(runCollect events).CallbacksPerHookPoint, ?_, ?_⟩
    · simp [Collect, hlen]
    · exact sortedRegistry_runCollect events
  · decide

/-- Witness for C1 at the three-sidecar fixture. -/
theorem claim1_priority_ordered_registry_witness :
    (∃ reg, Collect threePriorityEvents threePriorityEvents.length = Except.ok reg ∧
      ∀ h, sortedDesc (RegistryLookup reg h)) ∧
    (∀ l ∈ threePriorityEvents.permutations',
      ((RegistryLookup (resultRegistry (Collect l 3)) OnDefineDomainHookPointName).map
        entryPriority) = [3, 2, 1]) :=
  claim1_priority_ordered_registry threePriorityEvents (by decide) (by decide)

/-- C2: every entry of a collected registry is stored under exactly the
hook-point name it declared; inserting under one hook-point name leaves every
other hook point's sequence unchanged (independence); and on the
two-distinct-hook-point fixture, discovered in any order, each hook point's
sequence holds exactly the entry declared for it and both sequences are
ordered. -/
theorem claim2_hook_point_isolation :
    (∀ events h e, e ∈ RegistryLookup (runCollect events).CallbacksPerHookPoint h →
      ∀ hp ∈ e.subscribedHookPoints, hp.Name = h) ∧
    (∀ (h2 h : String) (e : CallbackEntry) (reg : CallbackRegistry), h ≠ h2 →
      RegistryLookup (registryInsert h2 e reg) h = RegistryLookup reg h) ∧
    (∀ l ∈ twoHookPointEvents.permutations',
      ((RegistryLookup (resultRegistry (Collect l 2)) OnDefineDomainHookPointName).map
        entryHookNames) = [[OnDefineDomainHookPointName]] ∧
      ((RegistryLookup (resultRegistry (Collect l 2)) PreCloudInitIsoHookPointName).map
        entryHookNames) = [[PreCloudInitIsoHookPointName]] ∧
      sortedDesc (RegistryLookup (resultRegistry (Collect l 2)) OnDefineDomainHookPointName) ∧
      sortedDesc (RegistryLookup (resultRegistry (Collect l 2)) PreCloudInitIsoHookPointName)) := by
  refine ⟨?_, ?_, ?_⟩
  · intro events h e hmem hp hhp
    refine registryAll_runCollect
      (P := fun h2 e2 => ∀ hp2 ∈ e2.subscribedHookPoints, hp2.Name = h2) ?_ events h e hmem hp hhp
    intro ep hp2 q hq
    rcases List.mem_singleton.mp hq with rfl
    rfl
  · intro h2 h e reg hne
    rw [lookup_registryInsert, if_neg hne]
  · decide

/-- Witness for C2: inserting under one hook point leaves the other hook
point's sequence unchanged. -/
theorem claim2_hook_point_isolation_witness :
    RegistryLookup (registryInsert PreCloudInitIsoHookPointName sampleEntry [])
      OnDefineDomainHookPointName = RegistryLookup [] OnDefineDomainHookPointName :=
  claim2_hook_point_isolation.2.1 PreCloudInitIsoHookPointName OnDefineDomainHookPointName
    sampleEntry [] (by decide)

/-- C3: a successfully probed sidecar declaring N hook points yields exactly N
callback entries: the registry built from that single probe holds N entries in
total, every entry carries the sidecar's invocation handle and exactly one
hook-point declaration, and for each declared hook point an entry with exactly
that declaration is registered under that hook point's name. -/
theorem claim3_descriptor_expansion (ep : String) (d : InfoResult) :
    registrySize (runCollect [{ endpoint := ep, result := some d }]).CallbacksPerHookPoint =
      d.HookPoints.length ∧
    (∀ h e, e ∈ RegistryLookup
        (runCollect [{ endpoint := ep, result := some d }]).CallbacksPerHookPoint h →
      e.handle = ep ∧ e.subscribedHookPoints.length = 1) ∧
    (∀ hp ∈ d.HookPoints,
      ({ handle := ep, subscribedHookPoints := [hp] } : CallbackEntry) ∈
        RegistryLookup
          (runCollect [{ endpoint := ep, result := some d }]).CallbacksPerHookPoint hp.Name) := by
  rw [runCollect_single]
  refine ⟨?_, ?_, ?_⟩
  · rw [registrySize_merge]
    simp [registrySize]
  · intro h e hmem
    exact registryAll_merge
      (P := fun _ e2 => e2.handle = ep ∧ e2.subscribedHookPoints.length = 1)
      ep d (fun hp => ⟨rfl, rfl⟩) registryAll_nil h e hmem
  · intro hp hhp
    exact mem_lookup_merge ep d [] hp hhp

/-- Witness for C3 at a single-hook-point descriptor. -/
theorem claim3_descriptor_expansion_witness :
    ({ handle := sampleSocketPath, subscribedHookPoints := [sampleHookPoint] } : CallbackEntry) ∈
      RegistryLookup
        (runCollect [{ endpoint := sampleSocketPath, result := some sampleDescriptor }]).CallbacksPerHookPoint
        sampleHookPoint.Name :=
  (claim3_descriptor_expansion sampleSocketPath sampleDescriptor).2.2 sampleHookPoint (by decide)

/-- C4: Collect succeeds exactly when the count of distinct successfully
probed sidecars reaches the expected count; on success the registry is
returned exactly as built (a minimum readiness gate, not a cap): with two
responding sidecars and expectedCount 1 the registry still holds both
entries, and with exactly one sidecar and expectedCount 1 it holds exactly
one entry for the declared hook point. -/
theorem claim4_minimum_readiness_gate :
    (∀ events n, (∃ reg, Collect events n = Except.ok reg) ↔
      n ≤ (runCollect events).probed.length) ∧
    (∀ events n reg, Collect events n = Except.ok reg →
      reg = (runCollect events).CallbacksPerHookPoint) ∧
    (∀ events, (runCollect events).probed.Nodup) ∧
    registrySize (resultRegistry (Collect twoHookPointEvents 1)) = 2 ∧
    (RegistryLookup (resultRegistry (Collect oneSidecarEvents 1))
      OnDefineDomainHookPointName).length = 1 ∧
    registrySize (resultRegistry (Collect oneSidecarEvents 1)) = 1 :=
  ⟨collect_ok_iff, collect_ok_registry, probed_nodup, by decide, by decide, by decide⟩

/-- Witness for C4: one responding sidecar meets an expected count of one. -/
theorem claim4_minimum_readiness_gate_witness :
    ∃ reg, Collect oneSidecarEvents 1 = Except.ok reg :=
  (claim4_minimum_readiness_gate.1 oneSidecarEvents 1).mpr (by decide)

/-- C5: with fewer than expectedCount distinct sidecars responding before the
deadline, Collect returns precisely the TimeoutError reporting how many were
found versus expected (and never success); appending a transiently failed
probe event never changes Collect's outcome (per-endpoint failures are
absorbed, so TimeoutError is the only user-visible error of a discovery
cycle); concretely, one responding sidecar against expectedCount 2 yields the
error with found 1, expected 2. -/
theorem claim5_timeout_error (events : List ProbeEvent) (n : Nat) :
    ((runCollect events).probed.length < n →
      Collect events n =
        Except.error { found := (runCollect events).probed.length, expected := n }) ∧
    (∀ ev, ev.result = none → Collect (events ++ [ev]) n = Collect events n) ∧
    Collect oneSidecarEvents 2 = Except.error { found := 1, expected := 2 } := by
  refine ⟨?_, ?_, by rfl⟩
  · intro hlt
    simp [Collect, Nat.not_le.mpr hlt]
  · intro ev hev
    have hrun : runCollect (events ++ [ev]) = runCollect events := by
      simp [runCollect, List.foldl_append, collectStep_none hev]
    simp [Collect, hrun]

/-- Witness for C5: the single-sidecar fixture misses an expected count of
two. -/
theorem claim5_timeout_error_witness :
    Collect oneSidecarEvents 2 =
      Except.error { found := (runCollect oneSidecarEvents).probed.length, expected := 2 } :=
  (claim5_timeout_error oneSidecarEvents 2).1 (by decide)

/-- C6: registry lookup is total — for a hook-point name with no registered
entries it returns the empty sequence (in particular on the empty registry)
and never an error; for registered names of a collected registry it returns
the sequence ordered by non-increasing priority. -/
theorem claim6_lookup_total (reg : CallbackRegistry) (h : String) :
    ((∀ p ∈ reg, p.1 ≠ h) → RegistryLookup reg h = []) ∧
    RegistryLookup ([] : CallbackRegistry) h = [] ∧
    (∀ events, sortedDesc (RegistryLookup (runCollect events).CallbacksPerHookPoint h)) := by
  refine ⟨?_, rfl, fun events => sortedRegistry_runCollect events h⟩
  induction reg with
  | nil => intro _; rfl
  | cons p rest ih =>
    intro hnone
    obtain ⟨k, l⟩ := p
    have hk : k ≠ h := hnone (k, l) (List.mem_cons_self _ _)
    simp only [RegistryLookup, if_neg hk]
    exact ih (fun q hq => hnone q (List.mem_cons_of_mem _ hq))

/-- Witness for C6: lookup of an unregistered name on the empty registry. -/
theorem claim6_lookup_total_witness :
    RegistryLookup ([] : CallbackRegistry) PreCloudInitIsoHookPointName = [] :=
  (claim6_lookup_total [] PreCloudInitIsoHookPointName).1 (by simp)

/-- C7: equal-priority tie-breaking is stable — positional insertion places
the new entry immediately after the longest prefix of entries with greater or
equal priority (so an earlier-discovered entry of equal priority stays
earlier), it preserves the non-increasing priority order, and on two
equal-priority sidecars discovered as hook1 then hook2 the hook point's
sequence keeps hook1's entry first. -/
theorem claim7_stable_equal_priority (e : CallbackEntry) (l : List CallbackEntry) :
    insertEntry e l =
      l.takeWhile (fun x => decide (entryPriority e ≤ entryPriority x)) ++
      e :: l.dropWhile (fun x => decide (entryPriority e ≤ entryPriority x)) ∧
    (sortedDesc l → sortedDesc (insertEntry e l)) ∧
    (RegistryLookup (runCollect equalPriorityEvents).CallbacksPerHookPoint
      OnDefineDomainHookPointName).map CallbackEntry.handle = ["hook1.sock", "hook2.sock"] :=
  ⟨insertEntry_eq_takeWhile_dropWhile e l, fun hs => sortedDesc_insertEntry e hs, by decide⟩

/-- Witness for C7: insertion into the empty (sorted) sequence. -/
theorem claim7_stable_equal_priority_witness :
    sortedDesc (insertEntry sampleEntry []) :=
  (claim7_stable_equal_priority sampleEntry []).2.1 (by decide)

/-- C8: the self-description response is deterministic — probing the same
configured server twice, with arbitrary contexts and parameter messages,
yields results with identical content (same name, same versions sequence,
same hook-point/priority declarations) and the same nil error. -/
theorem claim8_probe_deterministic (s : dynamicInfoServer) (c1 c2 : Context)
    (p1 p2 : InfoParams) :
    dynamicInfoServer.Info s c1 p1 = dynamicInfoServer.Info s c2 p2 := rfl

/-- C9: for every request, `dynamicInfoServer.Info` returns a nil error
together with a non-nil result whose Name is the configured hook name, whose
Versions is exactly the one-element v1alpha3 version list, and whose
HookPoints is exactly the one configured hook-point/priority declaration; the
ctx and params arguments have no effect on the result. -/
theorem claim9_info_result (s : dynamicInfoServer) (ctx : Context) (params : InfoParams) :
    (dynamicInfoServer.Info s ctx params).2 = none ∧
    (dynamicInfoServer.Info s ctx params).1 =
      some { Name := s.hookName
             Versions := [hooksV1alpha3Version]
             HookPoints := [{ Name := s.hookPointName, Priority := s.hookPointPriority }] } ∧
    (∀ ctx2 params2, dynamicInfoServer.Info s ctx2 params2 =
      dynamicInfoServer.Info s ctx params) :=
  ⟨rfl, rfl, fun _ _ => rfl⟩

/-- C10: the load-generator main performs exactly one workload operation per
run — DeleteWorkload when the Delete flag is set and CreateWorkload otherwise,
never both and never neither. -/
theorem claim10_single_workload_op (fl : LoadGenFlags) :
    (mainTrace fl).filter isWorkloadOp =
      [if fl.Delete then MainEvent.deleteWorkload else MainEvent.createWorkload] ∧
    ((mainTrace fl).filter isWorkloadOp).length = 1 := by
  cases hd : fl.Delete <;> simp [mainTrace, isWorkloadOp, hd]
